import Mathlib

/-!
Verification of the MILP-encoding core of the neural-network-Lyapunov
repository against its specification.  The development shallowly embeds the
relevant source functions over rational arithmetic: vectors are functions
`Fin n → ℚ`, a mixed-integer constraint set becomes a `Prop`-valued feasible
relation over its continuous and binary variables, and solver calls are
replaced by explicit optimality hypotheses about those feasible sets.
-/

namespace NNLyap

/-- Dot product of two rational vectors. -/
def dotq {n : ℕ} (v w : Fin n → ℚ) : ℚ := ∑ i, v i * w i

/-- Matrix-vector product, matrices as `Fin m → Fin n → ℚ` (row maps). -/
def mvec {m n : ℕ} (A : Fin m → Fin n → ℚ) (x : Fin n → ℚ) : Fin m → ℚ :=
  fun i => dotq (A i) x

/-- Componentwise membership of `x` in the box `[lo, up]`. -/
def inBox {n : ℕ} (lo up x : Fin n → ℚ) : Prop :=
  ∀ i, lo i ≤ x i ∧ x i ≤ up i

instance {n : ℕ} (lo up x : Fin n → ℚ) : Decidable (inBox lo up x) :=
  inferInstanceAs (Decidable (∀ i, lo i ≤ x i ∧ x i ≤ up i))

/-- torch.clamp(v, lo, up): clamp from below first, then from above. -/
def torchClamp (v lo up : ℚ) : ℚ := min (max v lo) up

/-- Saturation with optional limits, as computed by
torch.max(torch.min(v, up), lo) in FeedbackSystem.compute_u
(feedback_system.py lines 268-279).  A `none` limit models an infinite entry
of the numpy limit array, which leaves that side unclamped. -/
def osat (lo up : Option ℚ) (v : ℚ) : ℚ :=
  match lo, up with
  | none, none => v
  | none, some b => min v b
  | some a, none => max v a
  | some a, some b => max (min v b) a

/-! ### The input-saturation block (feedback_system.py `_add_input_saturation_constraint`) -/

/-- The artifact produced for one control dimension of the saturation block: the
feasible relation between the u_pre_sat variable and the u variable, and how
many binary variables the encoding introduces. -/
structure SatEncoding where
  rel : ℚ → ℚ → Prop
  binaryCount : ℕ

/-- One dimension of `_add_input_saturation_constraint` (feedback_system.py
lines 311-323).  When both limits are infinite (`none`) the source adds the
equality u = u_pre_sat and no binary variable.  When both limits are finite it
calls utils.add_saturation_as_mixed_integer_constraint; that function is not
under src/, so its feasible set is modelled from the spec: the exact 3-segment
piecewise-linear map u = clip(u_pre_sat, lo, up), one binary variable.  When
exactly one limit is infinite the source's assertion
`assert (not np.isinf(u_lower_limit[i]) and not np.isinf(u_upper_limit[i]))`
fails; the failed assertion is modelled as `none`. -/
def addInputSaturationDim : Option ℚ → Option ℚ → Option SatEncoding
  | none, none => some ⟨fun v w => w = v, 0⟩
  | some lo, some up => some ⟨fun v w => w = osat (some lo) (some up) v, 1⟩
  | none, some _ => none
  | some _, none => none

/-! ### Linear control-affine system (control_affine_system.py, via its tests) -/

/-- Modelled from the spec: control_affine_system.py is not under src/ (only its
tests are).  A linear control-affine system ẋ = A x + B u over box bounds on
state and control (spec §4.3, "For a LINEAR system (A,B)"); the behavior of
`dynamics` is pinned down by TestLinearSystem.test_dynamics
(test_control_affine_system.py lines 70-104), which requires
dynamics(x, u) = A x + B clamp(u, u_lo, u_up). -/
structure LinearSystem (n m : ℕ) where
  A : Fin n → Fin n → ℚ
  B : Fin n → Fin m → ℚ
  x_lo : Fin n → ℚ
  x_up : Fin n → ℚ
  u_lo : Fin m → ℚ
  u_up : Fin m → ℚ

/-- Modelled from the spec: f(x) = A x for the linear system. -/
def LinearSystem.f {n m : ℕ} (sys : LinearSystem n m) (x : Fin n → ℚ) : Fin n → ℚ :=
  mvec sys.A x

/-- Modelled from the spec: G(x) = B (constant) for the linear system. -/
def LinearSystem.G {n m : ℕ} (sys : LinearSystem n m) (_x : Fin n → ℚ) :
    Fin n → Fin m → ℚ :=
  sys.B

/-- Modelled from the spec: LinearSystem.dynamics first clamps the control into
[u_lo, u_up] (torch.clamp) and then applies f(x) + G(x) u, as required by
TestLinearSystem.test_dynamics. -/
def LinearSystem.dynamics {n m : ℕ} (sys : LinearSystem n m) (x : Fin n → ℚ)
    (u : Fin m → ℚ) : Fin n → ℚ :=
  fun i => sys.f x i + dotq (sys.G x i) (fun j => torchClamp (u j) (sys.u_lo j) (sys.u_up j))

/-- Modelled from the spec: the feasible set obtained from
LinearSystem.mixed_integer_constraints through add_system_constraint, with the
x variables bounded to the box exactly as in the src function
ControlLyapunov.add_system_constraint (control_lyapunov.py lines 96-143).
For a linear system the bundle is the trivial affine one (spec §4.3): the MILP
pins f = A x and the (unflattened) G output to the constant B. -/
def LinearSystem.sysConstraint {n m : ℕ} (sys : LinearSystem n m)
    (x f : Fin n → ℚ) (G : Fin n → Fin m → ℚ) : Prop :=
  inBox sys.x_lo sys.x_up x ∧ f = mvec sys.A x ∧ G = sys.B

/-- Number of slack variables created by the linear system's bundle (spec §4.3:
"trivial affine bundle, no binaries"; the test asserts len(slack_f) = 0). -/
def LinearSystem.sysConstraintSlackCount {n m : ℕ} (_sys : LinearSystem n m) : ℕ := 0

/-- Number of binary variables created by the linear system's bundle. -/
def LinearSystem.sysConstraintBinaryCount {n m : ℕ} (_sys : LinearSystem n m) : ℕ := 0

/-- The linear system of TestAddSystemConstraint/TestLinearSystem with
A = [[2,1],[-0.5,1]] and the box of get_simple_ca_system_params. -/
def linC1sys : LinearSystem 2 3 where
  A := ![![2, 1], ![-1/2, 1]]
  B := ![![1/2, 1/5, 3/10], ![1/10, 1/5, -3/2]]
  x_lo := ![-2, -3]
  x_up := ![1, 4]
  u_lo := ![-2, -3, -5]
  u_up := ![3, 4, 1]

/-- The linear system of TestLinearSystem.test_dynamics. -/
def dynTestSys : LinearSystem 2 3 where
  A := ![![1, 2], ![3, 4]]
  B := ![![1, 0, 0], ![0, 1, 2]]
  x_lo := ![-1, -3]
  x_up := ![1, 3]
  u_lo := ![1, 3, -2]
  u_up := ![4, 5, 1]

/-- Helper: evaluating `mvec linC1sys.A` at the pinned state [1, 2]. -/
theorem linC1sys_f_eval : mvec linC1sys.A ![1, 2] = ![4, 3/2] := by
  funext i
  fin_cases i <;>
    simp [mvec, dotq, linC1sys, Fin.sum_univ_succ] <;> norm_num

/-- C10: LinearSystem.dynamics saturates the control before applying it:
dynamics(x, u) = A x + B clamp(u, u_lo, u_up) for every x and u, and at the
test's out-of-bounds control u = [2, 6, -3] the result differs from applying
the control as given (the control is silently clipped). -/
theorem C10_dynamics_clamps_control :
    (∀ (n m : ℕ) (sys : LinearSystem n m) (x : Fin n → ℚ) (u : Fin m → ℚ),
      sys.dynamics x u = fun i =>
        mvec sys.A x i +
          dotq (sys.B i) (fun j => torchClamp (u j) (sys.u_lo j) (sys.u_up j))) ∧
    dynTestSys.dynamics ![1, 3] ![2, 6, -3] ≠
      (fun i => mvec dynTestSys.A ![1, 3] i + dotq (dynTestSys.B i) ![2, 6, -3]) := by
  refine ⟨fun n m sys x u => rfl, fun h => ?_⟩
  have h1 := congrFun h 1
  simp [LinearSystem.dynamics, LinearSystem.f, LinearSystem.G, dynTestSys, mvec,
    dotq, Fin.sum_univ_succ, torchClamp, min_def, max_def] at h1
  norm_num at h1

/-- C9 counterexample: for a control dimension with an infinite lower limit and
finite upper limit the saturation block does not omit half of the saturation;
the source's assertion rejects the configuration (modelled as `none`). -/
theorem C9_half_infinite_rejected :
    addInputSaturationDim Option.none (some 1) = Option.none := rfl

/-- C9 (amended): each control dimension with both limits finite is encoded as
the exact 3-segment piecewise-linear map u = clip(u_pre_sat, lo, up) with one
binary variable; with both limits infinite the mapping degenerates to
u = u_pre_sat with no binary variable; a dimension with exactly one infinite
limit is rejected by the source's assertion (no encoding is produced). -/
theorem C9_saturation_encoding :
    (∀ lo up : ℚ, addInputSaturationDim (some lo) (some up) =
      some ⟨fun v w => w = max (min v up) lo, 1⟩) ∧
    (addInputSaturationDim Option.none Option.none = some ⟨fun v w => w = v, 0⟩) ∧
    (∀ lo : ℚ, addInputSaturationDim (some lo) Option.none = Option.none) ∧
    (∀ up : ℚ, addInputSaturationDim Option.none (some up) = Option.none) :=
  ⟨fun _ _ => rfl, rfl, fun _ => rfl, fun _ => rfl⟩

/-! ### Forward-dynamics collaborator interface (spec §6) -/

/-- The forward-dynamics collaborator interface consumed by FeedbackSystem
(spec §6): the one-step map x[n+1] = f(x[n], u[n]) together with the feasible
set that its add_dynamics_constraint adds to the MILP. -/
structure ForwardSystem (n m : ℕ) where
  x_lo : Fin n → ℚ
  x_up : Fin n → ℚ
  step : (Fin n → ℚ) → (Fin m → ℚ) → (Fin n → ℚ)
  dynCnstr : (Fin n → ℚ) → (Fin m → ℚ) → (Fin n → ℚ) → Prop

/-- Exactness of the forward encoding (the guarantee of spec §4.3): for a state
inside the box, the feasible assignments of the dynamics constraints are
exactly the graph of the step map. -/
def ForwardSystem.Exact {n m : ℕ} (fs : ForwardSystem n m) : Prop :=
  ∀ x u xn, inBox fs.x_lo fs.x_up x → (fs.dynCnstr x u xn ↔ xn = fs.step x u)

/-! ### Leaky-ReLU networks and the exact big-M encoding (spec §4.2) -/

/-- Leaky ReLU activation max(p, α p) (spec glossary). -/
def leakyRelu (α p : ℚ) : ℚ := max p (α * p)

/-- Numeric 0/1 value of a binary variable. -/
def bval (β : Bool) : ℚ := if β then 1 else 0

/-- Modelled from the spec: relu_to_optimization.py is not under src/.  The four
linear inequalities of the exact big-M leaky-ReLU unit encoding (spec §4.2) for
a unit with pre-activation p bounded in [l, u], slack s and binary β (true ⟺
active):  s ≥ p, s ≥ α p, s ≤ p − (1−β)(1−α)l, s ≤ α p + β(1−α)u. -/
def unitCnstr (α l u p s : ℚ) (β : Bool) : Prop :=
  p ≤ s ∧ α * p ≤ s ∧
  s ≤ p - (1 - bval β) * ((1 - α) * l) ∧
  s ≤ α * p + bval β * ((1 - α) * u)

/-- Forcing half of unit exactness: any feasible (s, β) of the big-M unit
constraints has s equal to the leaky-ReLU value of the pre-activation. -/
theorem unitCnstr_forces {α l u p s : ℚ} {β : Bool}
    (h : unitCnstr α l u p s β) : s = leakyRelu α p := by
  obtain ⟨h1, h2, h3, h4⟩ := h
  cases β with
  | false =>
    norm_num [bval] at h3 h4
    have hs : s = α * p := le_antisymm h4 h2
    have hpp : p ≤ α * p := hs ▸ h1
    rw [hs, leakyRelu, max_eq_right hpp]
  | true =>
    norm_num [bval] at h3 h4
    have hs : s = p := le_antisymm h3 h1
    have hpp : α * p ≤ p := hs ▸ h2
    rw [hs, leakyRelu, max_eq_left hpp]

/-- Existence half of unit exactness: with valid pre-activation bounds
l ≤ p ≤ u and slope α ≤ 1, the leaky-ReLU value together with the sign binary
satisfies the big-M unit constraints. -/
theorem unitCnstr_exists {α l u p : ℚ} (hα1 : α ≤ 1) (hl : l ≤ p) (hu : p ≤ u) :
    unitCnstr α l u p (leakyRelu α p) (decide (0 ≤ p)) := by
  rcases le_or_lt 0 p with hp | hp
  · have hap : α * p ≤ p := by nlinarith
    have hlr : leakyRelu α p = p := max_eq_left hap
    rw [unitCnstr, hlr, decide_eq_true hp]
    refine ⟨le_refl p, hap, ?_, ?_⟩ <;> norm_num [bval] <;> nlinarith
  · have hap : p ≤ α * p := by nlinarith
    have hlr : leakyRelu α p = α * p := max_eq_right hap
    rw [unitCnstr, hlr, decide_eq_false (not_le.mpr hp)]
    refine ⟨hap, le_refl _, ?_, ?_⟩ <;> norm_num [bval] <;> nlinarith

/-- One-hidden-layer leaky-ReLU network with scalar output,
ϕ(x) = W2 · σ(W1 x + b1) + b2, negative slope α (the shape used throughout the
repository's Lyapunov certificates). -/
structure ReluNet (nIn nH : ℕ) where
  α : ℚ
  W1 : Fin nH → Fin nIn → ℚ
  b1 : Fin nH → ℚ
  W2 : Fin nH → ℚ
  b2 : ℚ

/-- Pre-activation of hidden unit j. -/
def ReluNet.preact {nIn nH : ℕ} (net : ReluNet nIn nH) (x : Fin nIn → ℚ)
    (j : Fin nH) : ℚ :=
  dotq (net.W1 j) x + net.b1 j

/-- Direct evaluation of the network. -/
def ReluNet.eval {nIn nH : ℕ} (net : ReluNet nIn nH) (x : Fin nIn → ℚ) : ℚ :=
  dotq net.W2 (fun j => leakyRelu net.α (net.preact x j)) + net.b2

/-- The slack/binary constraint block the ReLU-to-MILP encoder produces for the
hidden layer over pre-activation bounds [l, u], instantiated at input x
(spec §4.2, one unit per hidden neuron). -/
def ReluNet.netCnstr {nIn nH : ℕ} (net : ReluNet nIn nH) (l u : Fin nH → ℚ)
    (x : Fin nIn → ℚ) (s : Fin nH → ℚ) (β : Fin nH → Bool) : Prop :=
  ∀ j, unitCnstr net.α (l j) (u j) (net.preact x j) (s j) (β j)

/-- The affine output expression Aout_slack · slack + Cout of the encoder
(spec §4.2). -/
def ReluNet.outExpr {nIn nH : ℕ} (net : ReluNet nIn nH) (s : Fin nH → ℚ) : ℚ :=
  dotq net.W2 s + net.b2

/-- Soundness of the pre-activation bounds used as big-M constants at x. -/
def ReluNet.boundsOK {nIn nH : ℕ} (net : ReluNet nIn nH) (l u : Fin nH → ℚ)
    (x : Fin nIn → ℚ) : Prop :=
  ∀ j, l j ≤ net.preact x j ∧ net.preact x j ≤ u j

/-- Forcing half of encoder exactness: any feasible slack assignment reproduces
the network output through the affine output expression. -/
theorem netCnstr_forces {nIn nH : ℕ} {net : ReluNet nIn nH} {l u : Fin nH → ℚ}
    {x : Fin nIn → ℚ} {s : Fin nH → ℚ} {β : Fin nH → Bool}
    (h : net.netCnstr l u x s β) : net.outExpr s = net.eval x := by
  have hs : s = fun j => leakyRelu net.α (net.preact x j) :=
    funext fun j => unitCnstr_forces (h j)
  rw [ReluNet.outExpr, hs, ReluNet.eval]

/-- Existence half of encoder exactness under sound bounds. -/
theorem netCnstr_exists {nIn nH : ℕ} (net : ReluNet nIn nH) (l u : Fin nH → ℚ)
    (x : Fin nIn → ℚ) (hα1 : net.α ≤ 1) (hb : net.boundsOK l u x) :
    net.netCnstr l u x (fun j => leakyRelu net.α (net.preact x j))
      (fun j => decide (0 ≤ net.preact x j)) :=
  fun j => unitCnstr_exists hα1 (hb j).1 (hb j).2

/-! ### The Lyapunov value V(x) = ϕ(x) − ϕ(x̂) + λ‖R(x̄−x̄*)‖₁ (spec §4.5) -/

/-- Modelled from the spec: compute_xhat.py is not under src/.
_get_xhat_val, as documented in FeedbackSystem.__init__
(feedback_system.py lines 48-50, 61-62): x̂[i] = x*[i] if i is in the index
set, else x̂[i] = x[i].  xhat_indices = None means the whole index set. -/
def xhatVal {n : ℕ} (xhatIdx : Fin n → Bool) (xstar x : Fin n → ℚ) :
    Fin n → ℚ :=
  fun i => if xhatIdx i then xstar i else x i

/-- x̄ − x̄*: difference of the selected subvectors. -/
def xbarDiff {n nb : ℕ} (xbarIdx : Fin nb → Fin n) (x xstar : Fin n → ℚ) :
    Fin nb → ℚ :=
  fun j => x (xbarIdx j) - xstar (xbarIdx j)

/-- ‖R d‖₁. -/
def l1R {k nb : ℕ} (R : Fin k → Fin nb → ℚ) (d : Fin nb → ℚ) : ℚ :=
  ∑ i, |mvec R d i|

/-- Certificate function descriptor (spec §3): network ϕ, scale λ, norm matrix
R, the x̄ selection, the x̂ substitution index set and the equilibrium x*. -/
structure LyapCert (n nH k nb : ℕ) where
  phi : ReluNet n nH
  lam : ℚ
  R : Fin k → Fin nb → ℚ
  xbarIdx : Fin nb → Fin n
  xhatIdx : Fin n → Bool
  xstar : Fin n → ℚ

/-- Modelled from the spec: lyapunov.py is not under src/.  The Lyapunov value
V(x) = ϕ(x) − ϕ(x̂) + λ‖R(x̄−x̄*)‖₁ (spec §4.5 and the testers in
test_lyapunov.py). -/
def LyapCert.Vval {n nH k nb : ℕ} (c : LyapCert n nH k nb) (x : Fin n → ℚ) : ℚ :=
  c.phi.eval x - c.phi.eval (xhatVal c.xhatIdx c.xstar x) +
    c.lam * l1R c.R (xbarDiff c.xbarIdx x c.xstar)

/-- Modelled from the spec: the slack variables of the ‖R(x̄−x̄*)‖₁ term; the
L1 encoding is exact, each slack equalling the absolute value of the
corresponding row (spec §4.5 "the same affine-in-slack expression for V"). -/
def l1Cnstr {k : ℕ} (r t : Fin k → ℚ) : Prop := ∀ i, t i = |r i|

/-- The continuous and binary variables of one affine-in-slack evaluation of V:
the ReLU-encoder copy at x (s, β), the copy at x̂ (sh, βh) and the L1 slacks t.
The derivative MILP holds two independent such blocks (spec §4.5: binaries are
not shared between the x and x_next evaluations). -/
structure VBlockPoint (nH k : ℕ) where
  s : Fin nH → ℚ
  β : Fin nH → Bool
  sh : Fin nH → ℚ
  βh : Fin nH → Bool
  t : Fin k → ℚ

/-- Modelled from the spec: the constraints of one evaluation copy of V at x
inside a Lyapunov MILP, over pre-activation bounds [l, u] at x and [lh, uh] at
x̂ (lyapunov.py / compute_xhat._compute_network_at_xhat are not under src/). -/
def vBlockCnstr {n nH k nb : ℕ} (c : LyapCert n nH k nb) (l u lh uh : Fin nH → ℚ)
    (x : Fin n → ℚ) (v : VBlockPoint nH k) : Prop :=
  c.phi.netCnstr l u x v.s v.β ∧
  c.phi.netCnstr lh uh (xhatVal c.xhatIdx c.xstar x) v.sh v.βh ∧
  l1Cnstr (mvec c.R (xbarDiff c.xbarIdx x c.xstar)) v.t

/-- Modelled from the spec: the affine-in-slack expression of V used by the
MILP objectives (spec §4.5). -/
def vBlockExpr {n nH k nb : ℕ} (c : LyapCert n nH k nb) (v : VBlockPoint nH k) : ℚ :=
  c.phi.outExpr v.s - c.phi.outExpr v.sh + c.lam * ∑ i, v.t i

/-- Forcing half of V-block exactness: a feasible block evaluates the
affine-in-slack expression to the Lyapunov value V(x). -/
theorem vBlockCnstr_forces {n nH k nb : ℕ} {c : LyapCert n nH k nb}
    {l u lh uh : Fin nH → ℚ} {x : Fin n → ℚ} {v : VBlockPoint nH k}
    (h : vBlockCnstr c l u lh uh x v) : vBlockExpr c v = c.Vval x := by
  obtain ⟨h1, h2, h3⟩ := h
  have ht : ∑ i, v.t i = ∑ i, |mvec c.R (xbarDiff c.xbarIdx x c.xstar) i| :=
    Finset.sum_congr rfl fun i _ => h3 i
  rw [vBlockExpr, netCnstr_forces h1, netCnstr_forces h2, ht, LyapCert.Vval, l1R]

/-- The canonical feasible block at x. -/
def vBlockOf {n nH k nb : ℕ} (c : LyapCert n nH k nb) (x : Fin n → ℚ) :
    VBlockPoint nH k where
  s := fun j => leakyRelu c.phi.α (c.phi.preact x j)
  β := fun j => decide (0 ≤ c.phi.preact x j)
  sh := fun j => leakyRelu c.phi.α (c.phi.preact (xhatVal c.xhatIdx c.xstar x) j)
  βh := fun j => decide (0 ≤ c.phi.preact (xhatVal c.xhatIdx c.xstar x) j)
  t := fun i => |mvec c.R (xbarDiff c.xbarIdx x c.xstar) i|

/-- Existence half of V-block exactness under sound bounds. -/
theorem vBlockCnstr_exists {n nH k nb : ℕ} (c : LyapCert n nH k nb)
    (l u lh uh : Fin nH → ℚ) (x : Fin n → ℚ) (hα1 : c.phi.α ≤ 1)
    (hb : c.phi.boundsOK l u x)
    (hbh : c.phi.boundsOK lh uh (xhatVal c.xhatIdx c.xstar x)) :
    vBlockCnstr c l u lh uh x (vBlockOf c x) :=
  ⟨netCnstr_exists _ _ _ _ hα1 hb, netCnstr_exists _ _ _ _ hα1 hbh, fun _ => rfl⟩

/-! ### Discrete-time Lyapunov MILPs (lyapunov.py, via spec §4.5 and its tests) -/

/-- Autonomous forward-system collaborator for the discrete-time Lyapunov
MILPs: the step map x[n+1] = f(x[n]) and the feasible set of its dynamics
encoding. -/
structure AutoSystem (n : ℕ) where
  x_lo : Fin n → ℚ
  x_up : Fin n → ℚ
  step : (Fin n → ℚ) → (Fin n → ℚ)
  dynCnstr : (Fin n → ℚ) → (Fin n → ℚ) → Prop

/-- Exactness of the autonomous dynamics encoding (spec §4.3 guarantee). -/
def AutoSystem.Exact {n : ℕ} (sys : AutoSystem n) : Prop :=
  ∀ x xn, inBox sys.x_lo sys.x_up x → (sys.dynCnstr x xn ↔ xn = sys.step x)

/-- Modelled from the spec: the constraint set of lyapunov_positivity_as_milp
(lyapunov.py is not under src/): x ranges over the box domain and one V block
(ReLU-encoder copies at x and x̂ plus L1 slacks) is attached to x. -/
def posMilpCnstr {n nH k nb : ℕ} (c : LyapCert n nH k nb) (x_lo x_up : Fin n → ℚ)
    (l u lh uh : Fin nH → ℚ) (x : Fin n → ℚ) (v : VBlockPoint nH k) : Prop :=
  inBox x_lo x_up x ∧ vBlockCnstr c l u lh uh x v

/-- Modelled from the spec: the maximized objective of
lyapunov_positivity_as_milp, (ε−λ)·Σt − (Aout_slack·s + Cout) +
(Aout_slack·sh + Cout) (spec §4.5). -/
def posMilpObj {n nH k nb : ℕ} (c : LyapCert n nH k nb) (ε : ℚ)
    (v : VBlockPoint nH k) : ℚ :=
  (ε - c.lam) * (∑ i, v.t i) - c.phi.outExpr v.s + c.phi.outExpr v.sh

/-- Objective values of the positivity MILP with the x variables pinned to x. -/
def posMilpObjSet {n nH k nb : ℕ} (c : LyapCert n nH k nb) (x_lo x_up : Fin n → ℚ)
    (l u lh uh : Fin nH → ℚ) (ε : ℚ) (x : Fin n → ℚ) : Set ℚ :=
  {y | ∃ v, posMilpCnstr c x_lo x_up l u lh uh x v ∧ y = posMilpObj c ε v}

/-- lyapunov.ConvergenceEps: the three convergence-epsilon regimes. -/
inductive ConvergenceEps
  | ExpLower
  | ExpUpper
  | Asymp

/-- Modelled from the spec: the constraint set of lyapunov_derivative_as_milp
(lyapunov.py is not under src/): x in the box, x_next coupled through the
forward encoding, and two independent V blocks (separate ReLU-encoder copies
and binaries for the x and x_next evaluations, spec §4.5). -/
def derivMilpCnstr {n nH k nb : ℕ} (sys : AutoSystem n) (c : LyapCert n nH k nb)
    (l u lh uh ln un lhn uhn : Fin nH → ℚ) (x xn : Fin n → ℚ)
    (vx vn : VBlockPoint nH k) : Prop :=
  inBox sys.x_lo sys.x_up x ∧ sys.dynCnstr x xn ∧
  vBlockCnstr c l u lh uh x vx ∧ vBlockCnstr c ln un lhn uhn xn vn

/-- Modelled from the spec: the maximized objective of
lyapunov_derivative_as_milp per convergence-epsilon regime — ExpLower:
V(x_next) − V(x) + ε·V(x); ExpUpper: its negation; Asymp: the ε·V(x) term
replaced by ε·Σt over the L1 slacks of the x block (spec §4.5). -/
def derivMilpObj {n nH k nb : ℕ} (c : LyapCert n nH k nb) (ε : ℚ)
    (et : ConvergenceEps) (vx vn : VBlockPoint nH k) : ℚ :=
  match et with
  | .ExpLower => vBlockExpr c vn - vBlockExpr c vx + ε * vBlockExpr c vx
  | .ExpUpper => -(vBlockExpr c vn - vBlockExpr c vx + ε * vBlockExpr c vx)
  | .Asymp => vBlockExpr c vn - vBlockExpr c vx + ε * ∑ i, vx.t i

/-- Objective values of the derivative MILP with the x variables pinned to x. -/
def derivMilpObjSet {n nH k nb : ℕ} (sys : AutoSystem n) (c : LyapCert n nH k nb)
    (l u lh uh ln un lhn uhn : Fin nH → ℚ) (ε : ℚ) (et : ConvergenceEps)
    (x : Fin n → ℚ) : Set ℚ :=
  {y | ∃ xn vx vn, derivMilpCnstr sys c l u lh uh ln un lhn uhn x xn vx vn ∧
    y = derivMilpObj c ε et vx vn}

/-- Forcing for the derivative MILP: any feasible point of the constraints has
x_next equal to the step of x, and its V blocks and L1 slacks evaluate to the
corresponding direct values. -/
theorem derivMilpCnstr_forces {n nH k nb : ℕ} {sys : AutoSystem n}
    {c : LyapCert n nH k nb} {l u lh uh ln un lhn uhn : Fin nH → ℚ}
    {x xn : Fin n → ℚ} {vx vn : VBlockPoint nH k} (hex : sys.Exact)
    (h : derivMilpCnstr sys c l u lh uh ln un lhn uhn x xn vx vn) :
    xn = sys.step x ∧ vBlockExpr c vx = c.Vval x ∧
    vBlockExpr c vn = c.Vval (sys.step x) ∧
    ∑ i, vx.t i = l1R c.R (xbarDiff c.xbarIdx x c.xstar) := by
  obtain ⟨hbox, hdyn, hvx, hvn⟩ := h
  have hxn : xn = sys.step x := (hex x xn hbox).mp hdyn
  refine ⟨hxn, vBlockCnstr_forces hvx, ?_, ?_⟩
  · rw [← hxn]
    exact vBlockCnstr_forces hvn
  · rw [l1R]
    exact Finset.sum_congr rfl fun i _ => hvx.2.2 i

/-- C5: for every state x in the box domain, fixing the x variables of the
Lyapunov-positivity MILP to x yields an optimal MILP whose objective value
equals (ε−λ)‖R(x̄−x̄*)‖₁ − ϕ(x) + ϕ(x̂), where x̂ is the partial-equilibrium
substitution of x. -/
theorem C5_positivity_milp_fixed_state {n nH k nb : ℕ} (c : LyapCert n nH k nb)
    (x_lo x_up : Fin n → ℚ) (l u lh uh : Fin nH → ℚ) (ε : ℚ) (x : Fin n → ℚ)
    (hα1 : c.phi.α ≤ 1) (hx : inBox x_lo x_up x)
    (hb : c.phi.boundsOK l u x)
    (hbh : c.phi.boundsOK lh uh (xhatVal c.xhatIdx c.xstar x)) :
    IsGreatest (posMilpObjSet c x_lo x_up l u lh uh ε x)
      ((ε - c.lam) * l1R c.R (xbarDiff c.xbarIdx x c.xstar) -
        c.phi.eval x + c.phi.eval (xhatVal c.xhatIdx c.xstar x)) := by
  have hfix : ∀ v, posMilpCnstr c x_lo x_up l u lh uh x v →
      posMilpObj c ε v =
        (ε - c.lam) * l1R c.R (xbarDiff c.xbarIdx x c.xstar) -
          c.phi.eval x + c.phi.eval (xhatVal c.xhatIdx c.xstar x) := by
    rintro v ⟨-, h1, h2, h3⟩
    have ht : ∑ i, v.t i = l1R c.R (xbarDiff c.xbarIdx x c.xstar) := by
      rw [l1R]
      exact Finset.sum_congr rfl fun i _ => h3 i
    rw [posMilpObj, ht, netCnstr_forces h1, netCnstr_forces h2]
  constructor
  · exact ⟨vBlockOf c x,
      ⟨hx, vBlockCnstr_exists c l u lh uh x hα1 hb hbh⟩,
      (hfix _ ⟨hx, vBlockCnstr_exists c l u lh uh x hα1 hb hbh⟩).symm⟩
  · rintro y ⟨v, hv, rfl⟩
    exact (hfix v hv).le

/-- Concrete certificate for the Lyapunov MILP witnesses: 1-D state,
ϕ = leaky ReLU with slope 1/10, identity first layer, λ = 1/2, R = [1],
x̂ = x* = 0. -/
def wCert : LyapCert 1 1 1 1 where
  phi := { α := 1/10, W1 := ![![1]], b1 := ![0], W2 := ![1], b2 := 0 }
  lam := 1/2
  R := ![![1]]
  xbarIdx := fun j => j
  xhatIdx := fun _ => true
  xstar := ![0]

/-- Concrete contracting system for the Lyapunov MILP witnesses:
x[n+1] = x[n]/2 on [-1, 1], trivially exact encoding. -/
def wSys : AutoSystem 1 where
  x_lo := ![-1]
  x_up := ![1]
  step := fun x => fun i => x i / 2
  dynCnstr := fun x xn => xn = fun i => x i / 2

/-- Witness for C5: the concrete certificate and box, with x pinned to [1/2]. -/
theorem C5_positivity_milp_fixed_state_witness :
    IsGreatest (posMilpObjSet wCert ![-1] ![1] ![-2] ![2] ![-2] ![2] (1/4) ![1/2])
      ((1/4 - wCert.lam) * l1R wCert.R (xbarDiff wCert.xbarIdx ![1/2] wCert.xstar) -
        wCert.phi.eval ![1/2] +
        wCert.phi.eval (xhatVal wCert.xhatIdx wCert.xstar ![1/2])) := by
  refine C5_positivity_milp_fixed_state wCert ![-1] ![1] ![-2] ![2] ![-2] ![2]
    (1/4) ![1/2] (by norm_num [wCert]) ?_ ?_ ?_
  · intro i
    fin_cases i
    constructor <;> norm_num
  · intro j
    fin_cases j
    constructor <;>
      norm_num [wCert, ReluNet.preact, dotq, Fin.sum_univ_succ]
  · intro j
    fin_cases j
    constructor <;>
      norm_num [wCert, ReluNet.preact, dotq, Fin.sum_univ_succ, xhatVal]

/-- C3: for every state x in the domain, fixing the x variables of the
Lyapunov-derivative MILP to x yields an optimal MILP whose objective value is
V(x_next) − V(x) + ε·V(x) in the ExpLower regime, its negation in the ExpUpper
regime, and V(x_next) − V(x) + ε‖R(x̄−x̄*)‖₁ in the Asymp regime, with
x_next = step_forward(x) and V the Lyapunov value ϕ(x) − ϕ(x̂) + λ‖R(x̄−x̄*)‖₁. -/
theorem C3_derivative_milp_fixed_state {n nH k nb : ℕ} (sys : AutoSystem n)
    (c : LyapCert n nH k nb) (l u lh uh ln un lhn uhn : Fin nH → ℚ) (ε : ℚ)
    (x : Fin n → ℚ) (hex : sys.Exact) (hα1 : c.phi.α ≤ 1)
    (hx : inBox sys.x_lo sys.x_up x)
    (hb : c.phi.boundsOK l u x)
    (hbh : c.phi.boundsOK lh uh (xhatVal c.xhatIdx c.xstar x))
    (hbn : c.phi.boundsOK ln un (sys.step x))
    (hbhn : c.phi.boundsOK lhn uhn (xhatVal c.xhatIdx c.xstar (sys.step x))) :
    IsGreatest (derivMilpObjSet sys c l u lh uh ln un lhn uhn ε .ExpLower x)
      (c.Vval (sys.step x) - c.Vval x + ε * c.Vval x) ∧
    IsGreatest (derivMilpObjSet sys c l u lh uh ln un lhn uhn ε .ExpUpper x)
      (-(c.Vval (sys.step x) - c.Vval x + ε * c.Vval x)) ∧
    IsGreatest (derivMilpObjSet sys c l u lh uh ln un lhn uhn ε .Asymp x)
      (c.Vval (sys.step x) - c.Vval x +
        ε * l1R c.R (xbarDiff c.xbarIdx x c.xstar)) := by
  have hmem : derivMilpCnstr sys c l u lh uh ln un lhn uhn x (sys.step x)
      (vBlockOf c x) (vBlockOf c (sys.step x)) :=
    ⟨hx, (hex x _ hx).mpr rfl,
      vBlockCnstr_exists c l u lh uh x hα1 hb hbh,
      vBlockCnstr_exists c ln un lhn uhn (sys.step x) hα1 hbn hbhn⟩
  have hval : ∀ et xn vx vn,
      derivMilpCnstr sys c l u lh uh ln un lhn uhn x xn vx vn →
      derivMilpObj c ε et vx vn =
        match et with
        | .ExpLower => c.Vval (sys.step x) - c.Vval x + ε * c.Vval x
        | .ExpUpper => -(c.Vval (sys.step x) - c.Vval x + ε * c.Vval x)
        | .Asymp => c.Vval (sys.step x) - c.Vval x +
            ε * l1R c.R (xbarDiff c.xbarIdx x c.xstar) := by
    intro et xn vx vn h
    obtain ⟨-, hvx, hvn, ht⟩ := derivMilpCnstr_forces hex h
    cases et <;> simp only [derivMilpObj, hvx, hvn, ht]
  refine ⟨⟨⟨_, _, _, hmem, (hval .ExpLower _ _ _ hmem).symm⟩, ?_⟩,
    ⟨⟨_, _, _, hmem, (hval .ExpUpper _ _ _ hmem).symm⟩, ?_⟩,
    ⟨⟨_, _, _, hmem, (hval .Asymp _ _ _ hmem).symm⟩, ?_⟩⟩ <;>
    rintro y ⟨xn, vx, vn, hc, rfl⟩
  · exact (hval .ExpLower _ _ _ hc).le
  · exact (hval .ExpUpper _ _ _ hc).le
  · exact (hval .Asymp _ _ _ hc).le

/-- Witness for C3: the concrete contracting system and certificate, with x
pinned to [1/2]. -/
theorem C3_derivative_milp_fixed_state_witness :
    IsGreatest (derivMilpObjSet wSys wCert ![-2] ![2] ![-2] ![2] ![-2] ![2]
        ![-2] ![2] (1/4) .ExpLower ![1/2])
      (wCert.Vval (wSys.step ![1/2]) - wCert.Vval ![1/2] +
        (1/4) * wCert.Vval ![1/2]) ∧
    IsGreatest (derivMilpObjSet wSys wCert ![-2] ![2] ![-2] ![2] ![-2] ![2]
        ![-2] ![2] (1/4) .ExpUpper ![1/2])
      (-(wCert.Vval (wSys.step ![1/2]) - wCert.Vval ![1/2] +
        (1/4) * wCert.Vval ![1/2])) ∧
    IsGreatest (derivMilpObjSet wSys wCert ![-2] ![2] ![-2] ![2] ![-2] ![2]
        ![-2] ![2] (1/4) .Asymp ![1/2])
      (wCert.Vval (wSys.step ![1/2]) - wCert.Vval ![1/2] +
        (1/4) * l1R wCert.R (xbarDiff wCert.xbarIdx ![1/2] wCert.xstar)) := by
  refine C3_derivative_milp_fixed_state wSys wCert ![-2] ![2] ![-2] ![2] ![-2]
    ![2] ![-2] ![2] (1/4) ![1/2] (fun x xn _ => Iff.rfl)
    (by norm_num [wCert]) ?_ ?_ ?_ ?_ ?_
  · intro i
    fin_cases i
    constructor <;> norm_num [wSys]
  · intro j
    fin_cases j
    constructor <;>
      norm_num [wCert, ReluNet.preact, dotq, Fin.sum_univ_succ]
  · intro j
    fin_cases j
    constructor <;>
      norm_num [wCert, ReluNet.preact, dotq, Fin.sum_univ_succ, xhatVal]
  · intro j
    fin_cases j
    constructor <;>
      norm_num [wCert, wSys, ReluNet.preact, dotq, Fin.sum_univ_succ]
  · intro j
    fin_cases j
    constructor <;>
      norm_num [wCert, wSys, ReluNet.preact, dotq, Fin.sum_univ_succ, xhatVal]

/-- C4: if M* upper-bounds the objective over the whole (un-pinned) feasible
set of the Lyapunov-derivative MILP (ExpLower regime) — in particular if M* is
its optimal value — then for every state x inside the box domain the sample
violation V(step_forward(x)) − V(x) + ε·V(x) is at most M*. -/
theorem C4_milp_bound_dominates_samples {n nH k nb : ℕ} (sys : AutoSystem n)
    (c : LyapCert n nH k nb) (l u lh uh ln un lhn uhn : Fin nH → ℚ)
    (ε Mstar : ℚ) (hex : sys.Exact) (hα1 : c.phi.α ≤ 1)
    (hb : ∀ x, inBox sys.x_lo sys.x_up x →
      c.phi.boundsOK l u x ∧
      c.phi.boundsOK lh uh (xhatVal c.xhatIdx c.xstar x) ∧
      c.phi.boundsOK ln un (sys.step x) ∧
      c.phi.boundsOK lhn uhn (xhatVal c.xhatIdx c.xstar (sys.step x)))
    (hub : ∀ xs xn vx vn,
      derivMilpCnstr sys c l u lh uh ln un lhn uhn xs xn vx vn →
      derivMilpObj c ε .ExpLower vx vn ≤ Mstar) :
    ∀ x, inBox sys.x_lo sys.x_up x →
      c.Vval (sys.step x) - c.Vval x + ε * c.Vval x ≤ Mstar := by
  intro x hx
  obtain ⟨hb1, hb2, hb3, hb4⟩ := hb x hx
  have hmem : derivMilpCnstr sys c l u lh uh ln un lhn uhn x (sys.step x)
      (vBlockOf c x) (vBlockOf c (sys.step x)) :=
    ⟨hx, (hex x _ hx).mpr rfl,
      vBlockCnstr_exists c l u lh uh x hα1 hb1 hb2,
      vBlockCnstr_exists c ln un lhn uhn (sys.step x) hα1 hb3 hb4⟩
  have hle := hub x _ _ _ hmem
  obtain ⟨-, hvx, hvn, -⟩ := derivMilpCnstr_forces hex hmem
  simp only [derivMilpObj, hvx, hvn] at hle
  exact hle

/-- Evaluation of the witness certificate's Lyapunov value:
V(x) = leakyRelu(x) + |x|/2. -/
theorem wCert_Vval (x : Fin 1 → ℚ) :
    wCert.Vval x = max (x 0) ((1/10) * x 0) + (1/2) * |x 0| := by
  simp [LyapCert.Vval, ReluNet.eval, ReluNet.preact, dotq, Fin.sum_univ_succ,
    xhatVal, xbarDiff, l1R, mvec, leakyRelu, wCert]

/-- The sampled Lyapunov-derivative violation of the witness instance (ε = 1/4)
is nonpositive at every state, so M* = 0 upper-bounds the violations. -/
theorem wViolation_nonpos (x : Fin 1 → ℚ) :
    wCert.Vval (wSys.step x) - wCert.Vval x + (1/4) * wCert.Vval x ≤ 0 := by
  rw [wCert_Vval, wCert_Vval]
  have hstep : wSys.step x 0 = x 0 / 2 := rfl
  rw [hstep]
  rcases le_or_lt 0 (x 0) with h | h
  · rw [max_eq_left (by linarith), max_eq_left (by linarith), abs_of_nonneg h,
      abs_of_nonneg (by linarith : (0 : ℚ) ≤ x 0 / 2)]
    linarith
  · rw [max_eq_right (by linarith), max_eq_right (by linarith), abs_of_neg h,
      abs_of_neg (by linarith : x 0 / 2 < 0)]
    linarith

/-- Witness for C4: the concrete instance with M* = 0, evaluated at the sample
x = [1/2]. -/
theorem C4_milp_bound_dominates_samples_witness :
    wCert.Vval (wSys.step ![1/2]) - wCert.Vval ![1/2] +
      (1/4) * wCert.Vval ![1/2] ≤ 0 := by
  refine C4_milp_bound_dominates_samples wSys wCert ![-2] ![2] ![-2] ![2] ![-2]
    ![2] ![-2] ![2] (1/4) 0 (fun x xn _ => Iff.rfl) (by norm_num [wCert])
    ?_ ?_ ![1/2] ?_
  · intro x hx
    have h0 := hx 0
    norm_num [wSys] at h0
    refine ⟨?_, ?_, ?_, ?_⟩ <;> intro j <;> fin_cases j <;> constructor <;>
      simp [wCert, wSys, ReluNet.preact, dotq, Fin.sum_univ_succ, xhatVal] <;>
        linarith [h0.1, h0.2]
  · intro xs xn vx vn hc
    obtain ⟨-, hvx, hvn, -⟩ :=
      derivMilpCnstr_forces (fun x xn _ => Iff.rfl) hc
    simp only [derivMilpObj, hvx, hvn]
    exact wViolation_nonpos xs
  · intro i
    fin_cases i
    constructor <;> norm_num [wSys]

/-! ### Region-of-attraction search (lyapunov.py, via spec §4.6 and its tests) -/

/-- Out-of-box condition of the ROA MILPs: at least one of the 2·dim
half-space bounds is violated (spec §4.6, the binary-OR "exit the box"
encoding; the MILP closure uses non-strict inequalities). -/
def outOfBox {n : ℕ} (lo up x : Fin n → ℚ) : Prop :=
  ∃ i, x i ≤ lo i ∨ up i ≤ x i

/-- Modelled from the spec: feasible x_curr of the MILP built by
_construct_milp_for_roa (lyapunov.py is not under src/), with
x_next = step(x_curr).  With x_curr_in_box = true: x_curr inside the verified
box and x_next outside it, within the larger search box; with false: x_curr
outside the verified box within the larger box, and x_next inside. -/
def roaFeasible {n : ℕ} (sys : AutoSystem n) (loL upL : Fin n → ℚ)
    (curr_in : Bool) (x : Fin n → ℚ) : Prop :=
  if curr_in then
    inBox sys.x_lo sys.x_up x ∧ outOfBox sys.x_lo sys.x_up (sys.step x) ∧
      inBox loL upL (sys.step x)
  else
    inBox loL upL x ∧ outOfBox sys.x_lo sys.x_up x ∧
      inBox sys.x_lo sys.x_up (sys.step x)

/-- Modelled from the spec: objective values of the ROA MILP over its
feasible set.  Per the
assertions of construct_milp_roa_tester (test_lyapunov_roa.py lines 93-99) the
objective is the Lyapunov value at x_curr in both directions. -/
def roaObjSet {n nH k nb : ℕ} (sys : AutoSystem n) (c : LyapCert n nH k nb)
    (loL upL : Fin n → ℚ) (curr_in : Bool) : Set ℚ :=
  {v | ∃ x, roaFeasible sys loL upL curr_in x ∧ v = c.Vval x}

/-- Solver status of one MILP solve (spec §6): optimal with its objective
value, or infeasible. -/
inductive MilpResult
  | optimal (v : ℚ)
  | infeasible

/-- The result is a correct solve of a minimization MILP whose objective
values over the feasible set form S. -/
def solves (S : Set ℚ) : MilpResult → Prop
  | .optimal v => IsLeast S v
  | .infeasible => S = ∅

/-- Modelled from the spec: the rho contribution of one MILP result — its
optimal value, or +∞ for an
infeasible MILP (spec §4.6). -/
def MilpResult.toVal : MilpResult → WithTop ℚ
  | .optimal v => (v : WithTop ℚ)
  | .infeasible => ⊤

/-- Modelled from the spec: compute_region_of_attraction (lyapunov.py is not
under src/) solves the two MILPs of _construct_milp_for_roa and returns the
minimum of their optimal values, an infeasible MILP contributing +∞; an
infeasible status is a normal result, never an exception (spec §4.6, §7). -/
def computeRegionOfAttraction (r1 r2 : MilpResult) : WithTop ℚ :=
  min r1.toVal r2.toVal

/-- C6: compute_region_of_attraction returns the minimum of the optimal values
of the two ROA MILPs, an infeasible MILP contributing +∞ to the minimum; for
an always-contracting system (one whose step never leaves the box) the first
MILP is infeasible and the result is the second MILP's value, returned as a
normal result. -/
theorem C6_roa_min_of_two_milps {n nH k nb : ℕ} (sys : AutoSystem n)
    (c : LyapCert n nH k nb) (loL upL : Fin n → ℚ) (r1 r2 : MilpResult)
    (h1 : solves (roaObjSet sys c loL upL true) r1)
    (_h2 : solves (roaObjSet sys c loL upL false) r2) :
    computeRegionOfAttraction r1 r2 = min r1.toVal r2.toVal ∧
    ((∀ x, inBox sys.x_lo sys.x_up x → ¬ outOfBox sys.x_lo sys.x_up (sys.step x)) →
      r1 = MilpResult.infeasible ∧
      computeRegionOfAttraction r1 r2 = r2.toVal) := by
  refine ⟨rfl, fun hcontract => ?_⟩
  have hr1 : r1 = MilpResult.infeasible := by
    cases r1 with
    | infeasible => rfl
    | optimal v =>
      obtain ⟨x, hf, -⟩ := h1.1
      rw [roaFeasible, if_pos rfl] at hf
      exact absurd hf.2.1 (hcontract x hf.1)
  subst hr1
  exact ⟨rfl, min_eq_right le_top⟩

/-- The larger ROA search box of the witnesses. -/
def wLoL : Fin 1 → ℚ := ![-10]

/-- The larger ROA search box of the witnesses (upper bounds). -/
def wUpL : Fin 1 → ℚ := ![10]

/-- The first ROA MILP of the concrete contracting instance is infeasible:
x/2 never leaves the box [-1, 1] when x is inside it. -/
theorem wRoaS1_empty : roaObjSet wSys wCert wLoL wUpL true = ∅ := by
  rw [Set.eq_empty_iff_forall_not_mem]
  rintro v ⟨x, hf, -⟩
  rw [roaFeasible, if_pos rfl] at hf
  obtain ⟨hbox, ⟨i, hi⟩, -⟩ := hf
  have h0 := hbox 0
  norm_num [wSys] at h0
  fin_cases i
  rcases hi with h | h <;> norm_num [wSys] at h <;> linarith [h0.1, h0.2]

/-- The second ROA MILP of the concrete contracting instance attains its
minimum 2/5 = V([-1]) at x_curr = [-1]. -/
theorem wRoaS2_least :
    IsLeast (roaObjSet wSys wCert wLoL wUpL false) (2/5) := by
  constructor
  · refine ⟨![-1], ?_, ?_⟩
    · rw [roaFeasible, if_neg (by simp)]
      refine ⟨?_, ⟨0, Or.inl (by norm_num [wSys])⟩, ?_⟩
      · intro i
        fin_cases i
        constructor <;> norm_num [wLoL, wUpL]
      · intro i
        fin_cases i
        constructor <;> norm_num [wSys]
    · rw [wCert_Vval]
      rw [max_eq_right (by norm_num), abs_of_neg (by norm_num)]
      norm_num
  · rintro y ⟨x, hf, rfl⟩
    rw [roaFeasible, if_neg (by simp)] at hf
    obtain ⟨-, ⟨i, hi⟩, -⟩ := hf
    fin_cases i
    rw [wCert_Vval]
    rcases hi with h | h
    · norm_num [wSys] at h
      rw [max_eq_right (by linarith), abs_of_neg (by linarith)]
      linarith
    · norm_num [wSys] at h
      rw [max_eq_left (by linarith), abs_of_nonneg (by linarith)]
      linarith

/-- Witness for C6: for the concrete contracting instance, the first MILP is
infeasible and compute_region_of_attraction returns the second MILP's optimal
value 2/5 as a normal result. -/
theorem C6_roa_min_of_two_milps_witness :
    MilpResult.infeasible = MilpResult.infeasible ∧
    computeRegionOfAttraction MilpResult.infeasible (MilpResult.optimal (2/5)) =
      (MilpResult.optimal (2/5)).toVal :=
  (C6_roa_min_of_two_milps wSys wCert wLoL wUpL MilpResult.infeasible
      (MilpResult.optimal (2/5)) wRoaS1_empty wRoaS2_least).2
    (by
      intro x hx hout
      obtain ⟨i, hi⟩ := hout
      have h0 := hx 0
      norm_num [wSys] at h0
      fin_cases i
      rcases hi with h | h <;> norm_num [wSys] at h <;> linarith [h0.1, h0.2])

/-- C8 counterexample: in the concrete contracting instance, x_curr = [-1] is
an optimal solution of the second ROA MILP (x_curr outside the box, x_next
inside), the optimal objective value equals V(x_curr) = 2/5, but the Lyapunov
value at the in-box endpoint x_next is V([-1/2]) = 1/5 ≠ 2/5: the objective
value at the optimum is not V(x_next). -/
theorem C8_objective_is_not_Vnext :
    roaFeasible wSys wLoL wUpL false ![-1] ∧
    IsLeast (roaObjSet wSys wCert wLoL wUpL false) (wCert.Vval ![-1]) ∧
    wCert.Vval (wSys.step ![-1]) ≠ wCert.Vval ![-1] := by
  have hv : wCert.Vval ![-1] = 2/5 := by
    rw [wCert_Vval, max_eq_right (by norm_num), abs_of_neg (by norm_num)]
    norm_num
  refine ⟨?_, ?_, ?_⟩
  · rw [roaFeasible, if_neg (by simp)]
    refine ⟨?_, ⟨0, Or.inl (by norm_num [wSys])⟩, ?_⟩
    · intro i
      fin_cases i
      constructor <;> norm_num [wLoL, wUpL]
    · intro i
      fin_cases i
      constructor <;> norm_num [wSys]
  · rw [hv]
    exact wRoaS2_least
  · rw [hv, wCert_Vval]
    have hs : wSys.step ![-1] 0 = -(1/2) := by norm_num [wSys]
    rw [hs, max_eq_right (by norm_num), abs_of_neg (by norm_num)]
    norm_num

/-- C8 (amended): the second ROA MILP (x_curr outside the enclosing box,
x_next inside) minimizes the Lyapunov value at x_curr: its optimal value is
the least V(x_curr) over the feasible transitions, i.e. at the optimum the
objective value equals V evaluated at the out-of-box endpoint x_curr. -/
theorem C8_roa_milp2_minimizes_Vcurr {n nH k nb : ℕ} (sys : AutoSystem n)
    (c : LyapCert n nH k nb) (loL upL : Fin n → ℚ) (v : ℚ) :
    IsLeast (roaObjSet sys c loL upL false) v ↔
      ((∃ x, (inBox loL upL x ∧ outOfBox sys.x_lo sys.x_up x ∧
          inBox sys.x_lo sys.x_up (sys.step x)) ∧ v = c.Vval x) ∧
        ∀ x, inBox loL upL x → outOfBox sys.x_lo sys.x_up x →
          inBox sys.x_lo sys.x_up (sys.step x) → v ≤ c.Vval x) := by
  constructor
  · rintro ⟨⟨x, hf, rfl⟩, hlb⟩
    rw [roaFeasible, if_neg (by simp)] at hf
    refine ⟨⟨x, hf, rfl⟩, fun y h1 h2 h3 => ?_⟩
    exact hlb ⟨y, by rw [roaFeasible, if_neg (by simp)]; exact ⟨h1, h2, h3⟩, rfl⟩
  · rintro ⟨⟨x, hf, rfl⟩, hlb⟩
    constructor
    · exact ⟨x, by rw [roaFeasible, if_neg (by simp)]; exact hf, rfl⟩
    · rintro y ⟨z, hz, rfl⟩
      rw [roaFeasible, if_neg (by simp)] at hz
      exact hlb z hz.1 hz.2.1 hz.2.2

/-- Witness for the amended C8 at the concrete contracting instance. -/
theorem C8_roa_milp2_minimizes_Vcurr_witness :
    (∃ x, (inBox wLoL wUpL x ∧ outOfBox wSys.x_lo wSys.x_up x ∧
        inBox wSys.x_lo wSys.x_up (wSys.step x)) ∧ (2/5 : ℚ) = wCert.Vval x) ∧
    ∀ x, inBox wLoL wUpL x → outOfBox wSys.x_lo wSys.x_up x →
      inBox wSys.x_lo wSys.x_up (wSys.step x) → (2/5 : ℚ) ≤ wCert.Vval x :=
  (C8_roa_milp2_minimizes_Vcurr wSys wCert wLoL wUpL (2/5)).mp wRoaS2_least

/-! ### Control Lyapunov derivative (control_lyapunov.py) -/

/-- Row vector times matrix: (gᵀ M)_i = Σ_r g_r M_{r i}. -/
def vecMat {n m : ℕ} (g : Fin n → ℚ) (M : Fin n → Fin m → ℚ) : Fin m → ℚ :=
  fun i => ∑ r, g r * M r i

/-- Control-affine system collaborator of ControlLyapunov (spec §6): dynamics
ẋ = f(x) + G(x) u with box bounds on state and control. -/
structure CASystem (n m : ℕ) where
  x_lo : Fin n → ℚ
  x_up : Fin n → ℚ
  u_lo : Fin m → ℚ
  u_up : Fin m → ℚ
  f : (Fin n → ℚ) → (Fin n → ℚ)
  G : (Fin n → ℚ) → (Fin n → Fin m → ℚ)

/-- An admissible slope choice for the hidden units of `net` at input x:
`true` picks the slope-1 side, `false` the slope-α side; a nonzero
pre-activation forces the choice by its sign; at exactly zero both are
admissible (spec §4.5, subgradient enumeration). -/
def ReluNet.validSlopeChoice {nIn nH : ℕ} (net : ReluNet nIn nH)
    (x : Fin nIn → ℚ) (σ : Fin nH → Bool) : Prop :=
  ∀ j, (0 < net.preact x j → σ j = true) ∧ (net.preact x j < 0 → σ j = false)

instance {nIn nH : ℕ} (net : ReluNet nIn nH) (x : Fin nIn → ℚ) :
    DecidablePred (net.validSlopeChoice x) := fun σ =>
  inferInstanceAs (Decidable (∀ j,
    (0 < net.preact x j → σ j = true) ∧ (net.preact x j < 0 → σ j = false)))

/-- Modelled from the spec: utils.relu_network_gradient (utils.py is not under
src/) returns the full set of subgradients of ϕ at x, one per admissible slope
choice: ∇ϕ = Σ_j W2_j · slope_j · W1_j. -/
def ReluNet.gradSet {nIn nH : ℕ} (net : ReluNet nIn nH) (x : Fin nIn → ℚ) :
    Finset (Fin nIn → ℚ) :=
  (Finset.univ.filter (net.validSlopeChoice x)).image
    (fun σ => fun i => ∑ j, net.W2 j * (if σ j then 1 else net.α) * net.W1 j i)

/-- An admissible sign choice for the subgradient of ‖·‖₁ at r: nonzero
entries force their sign, zero entries admit both. -/
def validSignChoice {k : ℕ} (r : Fin k → ℚ) (τ : Fin k → Bool) : Prop :=
  ∀ i, (0 < r i → τ i = true) ∧ (r i < 0 → τ i = false)

instance {k : ℕ} (r : Fin k → ℚ) : DecidablePred (validSignChoice r) := fun τ =>
  inferInstanceAs (Decidable (∀ i,
    (0 < r i → τ i = true) ∧ (r i < 0 → τ i = false)))

/-- Modelled from the spec: utils.l1_gradient returns the full set of
subgradients of ‖·‖₁ at r, the admissible ±1 sign vectors. -/
def l1GradSet {k : ℕ} (r : Fin k → ℚ) : Finset (Fin k → ℚ) :=
  (Finset.univ.filter (validSignChoice r)).image
    (fun τ => fun i => if τ i then (1 : ℚ) else -1)

/-- The sign-of-preactivation slope choice is always admissible. -/
theorem gradSet_nonempty {nIn nH : ℕ} (net : ReluNet nIn nH)
    (x : Fin nIn → ℚ) : (net.gradSet x).Nonempty :=
  ⟨_, Finset.mem_image_of_mem _ (Finset.mem_filter.mpr ⟨Finset.mem_univ
    (fun j => decide (0 ≤ net.preact x j)),
    fun j => ⟨fun h => decide_eq_true h.le,
      fun h => decide_eq_false (not_le.mpr h)⟩⟩)⟩

/-- The sign choice by nonnegativity is always admissible. -/
theorem l1GradSet_nonempty {k : ℕ} (r : Fin k → ℚ) : (l1GradSet r).Nonempty :=
  ⟨_, Finset.mem_image_of_mem _ (Finset.mem_filter.mpr ⟨Finset.mem_univ
    (fun i => decide (0 ≤ r i)),
    fun i => ⟨fun h => decide_eq_true h.le,
      fun h => decide_eq_false (not_le.mpr h)⟩⟩)⟩

/-- The candidate ∂V/∂x set assembled by ControlLyapunov.lyapunov_derivative
(control_lyapunov.py lines 71-80): every ∂ϕ/∂x candidate plus every
λ·(sign)ᵀR candidate of the ‖R(x−x*)‖₁ term; the repeat/view tensor
combinatorics of the source enumerates exactly all such pairs. -/
def dVdxSet {n nH k : ℕ} (phi : ReluNet n nH) (lam : ℚ)
    (R : Fin k → Fin n → ℚ) (xstar x : Fin n → ℚ) : Finset (Fin n → ℚ) :=
  (phi.gradSet x ×ˢ l1GradSet (mvec R (fun j => x j - xstar j))).image
    (fun p => fun i => p.1 i + lam * vecMat p.2 R i)

/-- The candidate set is nonempty. -/
theorem dVdxSet_nonempty {n nH k : ℕ} (phi : ReluNet n nH) (lam : ℚ)
    (R : Fin k → Fin n → ℚ) (xstar x : Fin n → ℚ) :
    (dVdxSet phi lam R xstar x).Nonempty :=
  ((gradSet_nonempty phi x).product
    (l1GradSet_nonempty (mvec R (fun j => x j - xstar j)))).image _

/-- The closed-form worst case of V̇ over the control box for one gradient
candidate g (control_lyapunov.py lines 82-92):
g·f(x) + g·G(x)·(u_lo+u_up)/2 − ‖g·G(x)·diag((u_up−u_lo)/2)‖₁. -/
def worstVdot {n m : ℕ} (sys : CASystem n m) (x : Fin n → ℚ)
    (g : Fin n → ℚ) : ℚ :=
  dotq g (sys.f x) +
    dotq (vecMat g (sys.G x)) (fun i => (sys.u_lo i + sys.u_up i) / 2) -
    ∑ i, |vecMat g (sys.G x) i * ((sys.u_up i - sys.u_lo i) / 2)|

/-- Modelled from the spec: the Lyapunov value V(x) = ϕ(x) − ϕ(x*) +
λ‖R(x−x*)‖₁ as documented in
control_lyapunov.py lines 35-37 (lyapunov.LyapunovHybridLinearSystem.
lyapunov_value itself is not under src/). -/
def clfVval {n nH k : ℕ} (phi : ReluNet n nH) (xstar : Fin n → ℚ) (lam : ℚ)
    (R : Fin k → Fin n → ℚ) (x : Fin n → ℚ) : ℚ :=
  phi.eval x - phi.eval xstar +
    lam * ∑ i, |mvec R (fun j => x j - xstar j) i|

/-- ControlLyapunov.lyapunov_derivative (control_lyapunov.py lines 55-94):
the minimum of the closed-form worst-case V̇ over all candidate gradients,
plus ε·V(x). -/
def lyapunovDerivative {n m nH k : ℕ} (sys : CASystem n m) (phi : ReluNet n nH)
    (xstar : Fin n → ℚ) (lam ε : ℚ) (R : Fin k → Fin n → ℚ)
    (x : Fin n → ℚ) : ℚ :=
  ((dVdxSet phi lam R xstar x).image (worstVdot sys x)).min'
    ((dVdxSet_nonempty phi lam R xstar x).image _) +
    ε * clfVval phi xstar lam R x

/-- C7: for every state x in the box with input bounds u_lo ≤ u ≤ u_up,
ControlLyapunov.lyapunov_derivative returns the minimum, over the full
Minkowski sum of subgradient combinations (every ReLU-gradient choice of ϕ at
x combined with every sign choice of the ‖R(x−x*)‖₁ term), of the closed-form
worst-case derivative ∂V/∂x·f(x) + ∂V/∂x·G(x)·(u_lo+u_up)/2 −
‖∂V/∂x·G(x)·diag((u_up−u_lo)/2)‖₁, plus ε·V(x). -/
theorem C7_control_lyapunov_derivative {n m nH k : ℕ} (sys : CASystem n m)
    (phi : ReluNet n nH) (xstar : Fin n → ℚ) (lam ε : ℚ)
    (R : Fin k → Fin n → ℚ) (x : Fin n → ℚ)
    (_hx : inBox sys.x_lo sys.x_up x) (_hu : ∀ i, sys.u_lo i ≤ sys.u_up i) :
    IsLeast
      {y : ℚ | ∃ gp ∈ phi.gradSet x,
        ∃ gl ∈ l1GradSet (mvec R (fun j => x j - xstar j)),
        y = dotq (fun i => gp i + lam * vecMat gl R i) (sys.f x) +
          dotq (vecMat (fun i => gp i + lam * vecMat gl R i) (sys.G x))
            (fun i => (sys.u_lo i + sys.u_up i) / 2) -
          (∑ i, |vecMat (fun i => gp i + lam * vecMat gl R i) (sys.G x) i *
            ((sys.u_up i - sys.u_lo i) / 2)|) +
          ε * (phi.eval x - phi.eval xstar +
            lam * ∑ i, |mvec R (fun j => x j - xstar j) i|)}
      (lyapunovDerivative sys phi xstar lam ε R x) := by
  constructor
  · have hmem := Finset.min'_mem
      ((dVdxSet phi lam R xstar x).image (worstVdot sys x))
      ((dVdxSet_nonempty phi lam R xstar x).image _)
    obtain ⟨g, hg, hgeq⟩ := Finset.mem_image.mp hmem
    obtain ⟨p, hp, rfl⟩ := Finset.mem_image.mp hg
    obtain ⟨hp1, hp2⟩ := Finset.mem_product.mp hp
    refine ⟨p.1, hp1, p.2, hp2, ?_⟩
    show lyapunovDerivative sys phi xstar lam ε R x =
      worstVdot sys x (fun i => p.1 i + lam * vecMat p.2 R i) +
        ε * clfVval phi xstar lam R x
    rw [lyapunovDerivative, hgeq]
  · rintro y ⟨gp, hgp, gl, hgl, rfl⟩
    have hin : (fun i => gp i + lam * vecMat gl R i) ∈
        dVdxSet phi lam R xstar x :=
      Finset.mem_image.mpr ⟨(gp, gl), Finset.mem_product.mpr ⟨hgp, hgl⟩, rfl⟩
    have hle := Finset.min'_le _ _
      (Finset.mem_image_of_mem (worstVdot sys x) hin)
    rw [lyapunovDerivative]
    have : ∀ a b c : ℚ, a ≤ b → a + c ≤ b + c := fun a b c h => by linarith
    exact this _ _ _ hle

/-- Concrete 1-D control-affine system for the C7 witness:
ẋ = -x + u, u ∈ [-1, 1], x ∈ [-1, 1]. -/
def clfTestSys : CASystem 1 1 where
  x_lo := ![-1]
  x_up := ![1]
  u_lo := ![-1]
  u_up := ![1]
  f := fun x => fun i => -(x i)
  G := fun _ => ![![1]]

/-- Witness for C7 at the concrete system, the witness certificate network,
x = [1/2]. -/
theorem C7_control_lyapunov_derivative_witness :
    IsLeast
      {y : ℚ | ∃ gp ∈ wCert.phi.gradSet ![1/2],
        ∃ gl ∈ l1GradSet (mvec wCert.R (fun j => ![(1:ℚ)/2] j - wCert.xstar j)),
        y = dotq (fun i => gp i + wCert.lam * vecMat gl wCert.R i)
            (clfTestSys.f ![1/2]) +
          dotq (vecMat (fun i => gp i + wCert.lam * vecMat gl wCert.R i)
              (clfTestSys.G ![1/2]))
            (fun i => (clfTestSys.u_lo i + clfTestSys.u_up i) / 2) -
          (∑ i, |vecMat (fun i => gp i + wCert.lam * vecMat gl wCert.R i)
              (clfTestSys.G ![1/2]) i *
            ((clfTestSys.u_up i - clfTestSys.u_lo i) / 2)|) +
          (1/4) * (wCert.phi.eval ![1/2] - wCert.phi.eval wCert.xstar +
            wCert.lam *
              ∑ i, |mvec wCert.R (fun j => ![(1:ℚ)/2] j - wCert.xstar j) i|)}
      (lyapunovDerivative clfTestSys wCert.phi wCert.xstar wCert.lam (1/4)
        wCert.R ![1/2]) := by
  refine C7_control_lyapunov_derivative clfTestSys wCert.phi wCert.xstar
    wCert.lam (1/4) wCert.R ![1/2] ?_ ?_
  · intro i
    fin_cases i
    constructor <;> norm_num [clfTestSys]
  · intro i
    fin_cases i
    norm_num [clfTestSys]

/-! ### Feedback composition (feedback_system.py) -/

/-- Vector-output one-hidden-layer leaky-ReLU network, the shape of the
controller ϕᵤ. -/
structure ReluNetV (nIn nH nOut : ℕ) where
  α : ℚ
  W1 : Fin nH → Fin nIn → ℚ
  b1 : Fin nH → ℚ
  W2 : Fin nOut → Fin nH → ℚ
  b2 : Fin nOut → ℚ

/-- Pre-activation of hidden unit j. -/
def ReluNetV.preact {nIn nH nOut : ℕ} (net : ReluNetV nIn nH nOut)
    (x : Fin nIn → ℚ) (j : Fin nH) : ℚ :=
  dotq (net.W1 j) x + net.b1 j

/-- Direct evaluation of the network. -/
def ReluNetV.eval {nIn nH nOut : ℕ} (net : ReluNetV nIn nH nOut)
    (x : Fin nIn → ℚ) : Fin nOut → ℚ :=
  fun o => dotq (net.W2 o) (fun j => leakyRelu net.α (net.preact x j)) + net.b2 o

/-- The encoder's slack/binary block for the hidden layer (spec §4.2), as for
the scalar network. -/
def ReluNetV.netCnstr {nIn nH nOut : ℕ} (net : ReluNetV nIn nH nOut)
    (l u : Fin nH → ℚ) (x : Fin nIn → ℚ) (s : Fin nH → ℚ)
    (β : Fin nH → Bool) : Prop :=
  ∀ j, unitCnstr net.α (l j) (u j) (net.preact x j) (s j) (β j)

/-- Soundness of the pre-activation bounds at x. -/
def ReluNetV.boundsOK {nIn nH nOut : ℕ} (net : ReluNetV nIn nH nOut)
    (l u : Fin nH → ℚ) (x : Fin nIn → ℚ) : Prop :=
  ∀ j, l j ≤ net.preact x j ∧ net.preact x j ≤ u j

/-- Forcing half of encoder exactness for the vector-output network. -/
theorem netCnstrV_forces {nIn nH nOut : ℕ} {net : ReluNetV nIn nH nOut}
    {l u : Fin nH → ℚ} {x : Fin nIn → ℚ} {s : Fin nH → ℚ} {β : Fin nH → Bool}
    (h : net.netCnstr l u x s β) :
    s = fun j => leakyRelu net.α (net.preact x j) :=
  funext fun j => unitCnstr_forces (h j)

/-- The controller collaborator of FeedbackSystem: a single torch.nn.Linear
map or a (leaky-)ReLU torch.nn.Sequential network — the isinstance dispatch of
_add_controller_mip_constraint (feedback_system.py lines 224-233). -/
inductive Controller (n m nH : ℕ)
  | linear (K : Fin m → Fin n → ℚ) (kb : Fin m → ℚ)
  | network (phiU : ReluNetV n nH m)

/-- Direct evaluation ϕᵤ(x) of the controller. -/
def Controller.eval {n m nH : ℕ} : Controller n m nH → (Fin n → ℚ) → Fin m → ℚ
  | .linear K kb => fun x o => dotq (K o) x + kb o
  | .network phiU => fun x => phiU.eval x

/-- FeedbackSystem (feedback_system.py): forward system, controller network,
equilibrium (x*, u*) and control limits; `none` limits model infinite entries
of the numpy arrays.  xhat_indices = None throughout, so x̂ = x*. -/
structure FeedbackSystem (n m nH : ℕ) where
  forward : ForwardSystem n m
  ctrl : Controller n m nH
  x_eq : Fin n → ℚ
  u_eq : Fin m → ℚ
  u_lower_limit : Fin m → Option ℚ
  u_upper_limit : Fin m → Option ℚ

/-- FeedbackSystem.compute_u (feedback_system.py lines 259-279) with
xhat_indices = None: u = sat(ϕᵤ(x) − ϕᵤ(x*) + u*), saturation by
torch.max(torch.min(·, u_upper_limit), u_lower_limit). -/
def FeedbackSystem.computeU {n m nH : ℕ} (fs : FeedbackSystem n m nH)
    (x : Fin n → ℚ) : Fin m → ℚ :=
  fun j => osat (fs.u_lower_limit j) (fs.u_upper_limit j)
    (fs.ctrl.eval x j - fs.ctrl.eval fs.x_eq j + fs.u_eq j)

/-- FeedbackSystem.step_forward (feedback_system.py lines 285-291). -/
def FeedbackSystem.stepForward {n m nH : ℕ} (fs : FeedbackSystem n m nH)
    (x : Fin n → ℚ) : Fin n → ℚ :=
  fs.forward.step x (fs.computeU x)

/-- The controller block of _add_controller_mip_constraint: for a linear
controller the equality W x[n] − u_pre_sat = ϕᵤ(x*) − u* − bias (lines
201-208, empty slack/binary); for a network controller the ReLU-encoder block
on (s, βc) over bounds [cl, cu] plus
Aout_slack·s − u_pre_sat = ϕᵤ(x̂) − u* − Cout (lines 152-162), where
xhat_indices = None makes ϕᵤ(x̂) the constant ϕᵤ(x*). -/
def ctrlCnstr {n m nH : ℕ} (ctrl : Controller n m nH) (cl cu : Fin nH → ℚ)
    (x_eq : Fin n → ℚ) (u_eq : Fin m → ℚ) (x : Fin n → ℚ) (s : Fin nH → ℚ)
    (βc : Fin nH → Bool) (u_pre : Fin m → ℚ) : Prop :=
  match ctrl with
  | .linear K kb => ∀ o, dotq (K o) x - u_pre o =
      (dotq (K o) x_eq + kb o) - u_eq o - kb o
  | .network phiU => phiU.netCnstr cl cu x s βc ∧
      ∀ o, dotq (phiU.W2 o) s - u_pre o =
        phiU.eval x_eq o - u_eq o - phiU.b2 o

/-- Big-M soundness requirement of the controller block: nothing for the
linear controller, slope ≤ 1 and sound pre-activation bounds for the network
controller. -/
def ctrlOK {n m nH : ℕ} (ctrl : Controller n m nH) (cl cu : Fin nH → ℚ)
    (x : Fin n → ℚ) : Prop :=
  match ctrl with
  | .linear _ _ => True
  | .network phiU => phiU.α ≤ 1 ∧ phiU.boundsOK cl cu x

/-- Any feasible controller block forces u_pre_sat = ϕᵤ(x) − ϕᵤ(x*) + u*. -/
theorem ctrlCnstr_forces {n m nH : ℕ} {ctrl : Controller n m nH}
    {cl cu : Fin nH → ℚ} {x_eq : Fin n → ℚ} {u_eq : Fin m → ℚ}
    {x : Fin n → ℚ} {s : Fin nH → ℚ} {βc : Fin nH → Bool} {u_pre : Fin m → ℚ}
    (h : ctrlCnstr ctrl cl cu x_eq u_eq x s βc u_pre) :
    ∀ o, u_pre o = ctrl.eval x o - ctrl.eval x_eq o + u_eq o := by
  cases ctrl with
  | linear K kb =>
    intro o
    have ho := h o
    simp only [Controller.eval]
    linarith
  | network phiU =>
    obtain ⟨hnet, heq⟩ := h
    intro o
    have ho := heq o
    rw [netCnstrV_forces hnet] at ho
    simp only [Controller.eval, ReluNetV.eval] at ho ⊢
    linarith

/-- The controller block is feasible with u_pre_sat at its forced value. -/
theorem ctrlCnstr_exists {n m nH : ℕ} (ctrl : Controller n m nH)
    (cl cu : Fin nH → ℚ) (x_eq : Fin n → ℚ) (u_eq : Fin m → ℚ)
    (x : Fin n → ℚ) (hok : ctrlOK ctrl cl cu x) :
    ∃ s βc, ctrlCnstr ctrl cl cu x_eq u_eq x s βc
      (fun o => ctrl.eval x o - ctrl.eval x_eq o + u_eq o) := by
  cases ctrl with
  | linear K kb =>
    exact ⟨fun _ => 0, fun _ => false, fun o => by
      simp only [Controller.eval]; ring⟩
  | network phiU =>
    obtain ⟨hα, hb⟩ := hok
    refine ⟨fun j => leakyRelu phiU.α (phiU.preact x j),
      fun j => decide (0 ≤ phiU.preact x j),
      fun j => unitCnstr_exists hα (hb j).1 (hb j).2, fun o => ?_⟩
    simp only [Controller.eval, ReluNetV.eval]
    ring

/-- The feasible set of FeedbackSystem.add_dynamics_mip_constraint
(feedback_system.py lines 235-257): the forward-dynamics constraints on
(x, u, x_next), the controller block constraining u_pre_sat as a function of
the same x variable, and the saturation block linking u_pre_sat to u
(lines 294-325). -/
def FeedbackSystem.closedLoopCnstr {n m nH : ℕ} (fs : FeedbackSystem n m nH)
    (cl cu : Fin nH → ℚ) (x : Fin n → ℚ) (s : Fin nH → ℚ) (βc : Fin nH → Bool)
    (u_pre u : Fin m → ℚ) (xn : Fin n → ℚ) : Prop :=
  fs.forward.dynCnstr x u xn ∧
  ctrlCnstr fs.ctrl cl cu fs.x_eq fs.u_eq x s βc u_pre ∧
  (∀ j, ∃ enc, addInputSaturationDim (fs.u_lower_limit j) (fs.u_upper_limit j) =
      some enc ∧ enc.rel (u_pre j) (u j))

/-- C2: for every state x inside the box, the closed-loop MILP built by
FeedbackSystem.add_dynamics_mip_constraint (forward-dynamics constraints plus
controller constraints sharing the same x variable), with x pinned, admits
exactly u = compute_u(x) and x_next = step_forward(x) as the values of its u
and x_next variables, and the u value always lies within
[u_lower_limit, u_upper_limit]. -/
theorem C2_closed_loop_mip_exact {n m nH : ℕ} (fs : FeedbackSystem n m nH)
    (cl cu : Fin nH → ℚ) (hex : fs.forward.Exact)
    (hsat : ∀ j, (addInputSaturationDim (fs.u_lower_limit j)
      (fs.u_upper_limit j)).isSome = true)
    (hlim : ∀ j a b, fs.u_lower_limit j = some a → fs.u_upper_limit j = some b →
      a ≤ b)
    (x : Fin n → ℚ) (hok : ctrlOK fs.ctrl cl cu x)
    (hx : inBox fs.forward.x_lo fs.forward.x_up x) :
    (∃ s βc u_pre u xn, fs.closedLoopCnstr cl cu x s βc u_pre u xn) ∧
    (∀ s βc u_pre u xn, fs.closedLoopCnstr cl cu x s βc u_pre u xn →
      u = fs.computeU x ∧ xn = fs.stepForward x ∧
      ∀ j, (∀ a, fs.u_lower_limit j = some a → a ≤ u j) ∧
           (∀ b, fs.u_upper_limit j = some b → u j ≤ b)) := by
  constructor
  · obtain ⟨s, βc, hc⟩ := ctrlCnstr_exists fs.ctrl cl cu fs.x_eq fs.u_eq x hok
    refine ⟨s, βc, fun o => fs.ctrl.eval x o - fs.ctrl.eval fs.x_eq o + fs.u_eq o,
      fs.computeU x, fs.stepForward x, (hex x _ _ hx).mpr rfl, hc, fun j => ?_⟩
    have h := hsat j
    rcases h1 : fs.u_lower_limit j with _ | a
    · rcases h2 : fs.u_upper_limit j with _ | b
      · exact ⟨⟨fun v w => w = v, 0⟩, rfl, by
          simp [FeedbackSystem.computeU, h1, h2, osat]⟩
      · rw [h1, h2] at h
        simp [addInputSaturationDim] at h
    · rcases h2 : fs.u_upper_limit j with _ | b
      · rw [h1, h2] at h
        simp [addInputSaturationDim] at h
      · exact ⟨⟨fun v w => w = osat (some a) (some b) v, 1⟩, rfl,
          by simp [FeedbackSystem.computeU, h1, h2]⟩
  · rintro s βc u_pre u xn ⟨hdyn, hctrl, hs⟩
    have hupre := ctrlCnstr_forces hctrl
    have hu : u = fs.computeU x := by
      funext j
      obtain ⟨enc, heq, hrel⟩ := hs j
      rcases h1 : fs.u_lower_limit j with _ | a
      · rcases h2 : fs.u_upper_limit j with _ | b
        · rw [h1, h2] at heq
          simp only [addInputSaturationDim, Option.some.injEq] at heq
          rw [← heq] at hrel
          have hrel2 : u j = u_pre j := hrel
          simp only [FeedbackSystem.computeU, h1, h2, osat]
          rw [hrel2, hupre j]
        · rw [h1, h2] at heq
          simp [addInputSaturationDim] at heq
      · rcases h2 : fs.u_upper_limit j with _ | b
        · rw [h1, h2] at heq
          simp [addInputSaturationDim] at heq
        · rw [h1, h2] at heq
          simp only [addInputSaturationDim, Option.some.injEq] at heq
          rw [← heq] at hrel
          have hrel2 : u j = osat (some a) (some b) (u_pre j) := hrel
          simp only [FeedbackSystem.computeU, h1, h2]
          rw [hrel2, hupre j]
    refine ⟨hu, ?_, ?_⟩
    · rw [FeedbackSystem.stepForward, ← hu]
      exact (hex x u xn hx).mp hdyn
    · intro j
      rw [hu]
      simp only [FeedbackSystem.computeU]
      constructor
      · intro a h1
        rcases h2 : fs.u_upper_limit j with _ | b
        · simp only [osat, h1]
          exact le_max_right _ _
        · simp only [osat, h1, h2]
          exact le_max_right _ _
      · intro b h2
        rcases h1 : fs.u_lower_limit j with _ | a
        · simp only [osat, h1, h2]
          exact min_le_right _ _
        · simp only [osat, h1, h2]
          exact max_le (min_le_right _ _) (hlim j a b h1 h2)

/-- Concrete forward system for the C2 witness: 1-D system
x[n+1] = x[n]/2 + u[n] on the box [-1, 1], trivially exact dynamics
encoding. -/
def fbTestForward : ForwardSystem 1 1 where
  x_lo := ![-1]
  x_up := ![1]
  step := fun x u => fun i => x i / 2 + u i
  dynCnstr := fun x u xn => xn = fun i => x i / 2 + u i

/-- Concrete feedback system for the C2 witness: a one-unit leaky-ReLU network
controller with slope 1/10, zero equilibrium, saturation limits [-1, 1]. -/
def fbTestSys : FeedbackSystem 1 1 1 where
  forward := fbTestForward
  ctrl := .network { α := 1/10, W1 := ![![1]], b1 := ![0], W2 := ![![1]], b2 := ![0] }
  x_eq := ![0]
  u_eq := ![0]
  u_lower_limit := ![some (-1)]
  u_upper_limit := ![some 1]

/-- Witness for C2 at the concrete network-controller feedback system and
x = [3/4]. -/
theorem C2_closed_loop_mip_exact_witness :
    (∃ s βc u_pre u xn,
      fbTestSys.closedLoopCnstr ![-2] ![2] ![3/4] s βc u_pre u xn) ∧
    (∀ s βc u_pre u xn,
      fbTestSys.closedLoopCnstr ![-2] ![2] ![3/4] s βc u_pre u xn →
      u = fbTestSys.computeU ![3/4] ∧ xn = fbTestSys.stepForward ![3/4] ∧
      ∀ j, (∀ a, fbTestSys.u_lower_limit j = some a → a ≤ u j) ∧
           (∀ b, fbTestSys.u_upper_limit j = some b → u j ≤ b)) := by
  refine C2_closed_loop_mip_exact fbTestSys ![-2] ![2] ?_ ?_ ?_ ![3/4] ?_ ?_
  · intro x u xn _
    exact Iff.rfl
  · intro j
    fin_cases j
    rfl
  · intro j a b h1 h2
    fin_cases j
    simp [fbTestSys] at h1 h2
    rw [← h1, ← h2]
    norm_num
  · refine ⟨by norm_num, fun j => ?_⟩
    fin_cases j
    constructor <;>
      norm_num [fbTestSys, ReluNetV.preact, dotq, Fin.sum_univ_succ]
  · intro i
    fin_cases i
    exact ⟨by norm_num [fbTestSys, fbTestForward],
      by norm_num [fbTestSys, fbTestForward]⟩

/-! ### The ReLU second-order control-affine system and claim C1 -/

/-- Modelled from the spec: ReluSecondOrderControlAffineSystem
(control_affine_system.py is not under src/; spec §4.3): planar state
x = (q, v) with nq = 1, dynamics q̇ = v, v̇ = ϕ_a(x) + ϕ_b(x) u, with ϕ_a
scalar-output and ϕ_b one output per control dimension. -/
structure ReluSOSystem (m nHa nHb : ℕ) where
  phi_a : ReluNet 2 nHa
  phi_b : ReluNetV 2 nHb m
  x_lo : Fin 2 → ℚ
  x_up : Fin 2 → ℚ
  u_lo : Fin m → ℚ
  u_up : Fin m → ℚ

/-- Modelled from the spec: f(x) = [v, ϕ_a(x)] for the second-order system. -/
def ReluSOSystem.f {m nHa nHb : ℕ} (sys : ReluSOSystem m nHa nHb)
    (x : Fin 2 → ℚ) : Fin 2 → ℚ :=
  ![x 1, sys.phi_a.eval x]

/-- Modelled from the spec: G(x) = [0; ϕ_b(x)] for the second-order system. -/
def ReluSOSystem.G {m nHa nHb : ℕ} (sys : ReluSOSystem m nHa nHb)
    (x : Fin 2 → ℚ) : Fin 2 → Fin m → ℚ :=
  ![fun _ => 0, sys.phi_b.eval x]

/-- Modelled from the spec: the feasible set obtained from
mixed_integer_constraints of the ReLU second-order system through
add_system_constraint (spec §4.3, test_mixed_integer_constraints1): the box on
x, the identity block f_q = v, the ReLU-encoder block of ϕ_a with its affine
output row pinned to f_v, the constant block G_q = 0, and the encoder block of
ϕ_b with its affine output rows pinned to G_v. -/
def ReluSOSystem.sysConstraint {m nHa nHb : ℕ} (sys : ReluSOSystem m nHa nHb)
    (la ua : Fin nHa → ℚ) (lb ub : Fin nHb → ℚ) (x f : Fin 2 → ℚ)
    (G : Fin 2 → Fin m → ℚ) (sa : Fin nHa → ℚ) (βa : Fin nHa → Bool)
    (sb : Fin nHb → ℚ) (βb : Fin nHb → Bool) : Prop :=
  inBox sys.x_lo sys.x_up x ∧
  f 0 = x 1 ∧
  sys.phi_a.netCnstr la ua x sa βa ∧
  f 1 = sys.phi_a.outExpr sa ∧
  (∀ o, G 0 o = 0) ∧
  sys.phi_b.netCnstr lb ub x sb βb ∧
  (∀ o, G 1 o = dotq (sys.phi_b.W2 o) sb + sys.phi_b.b2 o)

/-- C1: for every system within scope (the linear system and the ReLU
second-order control-affine system) and every state x inside the declared box,
the MILP assembled from mixed_integer_constraints / add_system_constraint with
the x variables pinned to x is feasible and its f and G variables are forced
to equal the direct evaluations f(x) and G(x); for the test's linear system
with A = [[2,1],[-0.5,1]] and x pinned to [1,2] the forced value is
f = A·[1,2]ᵗ = [4, 3/2], with no slack and no binary variables created; for x
outside the box the MILP is infeasible. -/
theorem C1_system_constraint_exact :
    (∀ (n m : ℕ) (sys : LinearSystem n m) (x : Fin n → ℚ),
      inBox sys.x_lo sys.x_up x →
        (∃ f G, sys.sysConstraint x f G) ∧
        ∀ f G, sys.sysConstraint x f G → f = sys.f x ∧ G = sys.G x) ∧
    (∀ (n m : ℕ) (sys : LinearSystem n m) (x : Fin n → ℚ),
      ¬ inBox sys.x_lo sys.x_up x → ¬ ∃ f G, sys.sysConstraint x f G) ∧
    (∀ (m nHa nHb : ℕ) (sys : ReluSOSystem m nHa nHb)
      (la ua : Fin nHa → ℚ) (lb ub : Fin nHb → ℚ) (x : Fin 2 → ℚ),
      sys.phi_a.α ≤ 1 → sys.phi_b.α ≤ 1 →
      sys.phi_a.boundsOK la ua x → sys.phi_b.boundsOK lb ub x →
      inBox sys.x_lo sys.x_up x →
        (∃ f G sa βa sb βb, sys.sysConstraint la ua lb ub x f G sa βa sb βb) ∧
        ∀ f G sa βa sb βb, sys.sysConstraint la ua lb ub x f G sa βa sb βb →
          f = sys.f x ∧ G = sys.G x) ∧
    (∀ (m nHa nHb : ℕ) (sys : ReluSOSystem m nHa nHb)
      (la ua : Fin nHa → ℚ) (lb ub : Fin nHb → ℚ) (x : Fin 2 → ℚ),
      ¬ inBox sys.x_lo sys.x_up x →
      ¬ ∃ f G sa βa sb βb, sys.sysConstraint la ua lb ub x f G sa βa sb βb) ∧
    (∀ f G, linC1sys.sysConstraint ![1, 2] f G → f = ![4, 3/2]) ∧
    linC1sys.sysConstraintSlackCount = 0 ∧
    linC1sys.sysConstraintBinaryCount = 0 := by
  refine ⟨?_, ?_, ?_, ?_, ?_, rfl, rfl⟩
  · intro n m sys x hx
    exact ⟨⟨mvec sys.A x, sys.B, hx, rfl, rfl⟩,
      fun f G h => ⟨h.2.1, h.2.2⟩⟩
  · rintro n m sys x hx ⟨f, G, hbox, -, -⟩
    exact hx hbox
  · intro m nHa nHb sys la ua lb ub x hαa hαb hba hbb hx
    constructor
    · refine ⟨sys.f x, sys.G x,
        fun j => leakyRelu sys.phi_a.α (sys.phi_a.preact x j),
        fun j => decide (0 ≤ sys.phi_a.preact x j),
        fun j => leakyRelu sys.phi_b.α (sys.phi_b.preact x j),
        fun j => decide (0 ≤ sys.phi_b.preact x j),
        hx, rfl, netCnstr_exists sys.phi_a la ua x hαa hba, ?_, fun o => rfl,
        fun j => unitCnstr_exists hαb (hbb j).1 (hbb j).2, fun o => ?_⟩
      · show sys.phi_a.eval x = sys.phi_a.outExpr _
        rw [ReluNet.outExpr, ReluNet.eval]
      · show sys.phi_b.eval x o = _
        rw [ReluNetV.eval]
    · rintro f G sa βa sb βb ⟨-, hf0, hca, hf1, hG0, hcb, hG1⟩
      constructor
      · funext i
        fin_cases i
        · exact hf0
        · show f 1 = sys.f x 1
          rw [hf1, netCnstr_forces hca]
          rfl
      · funext i
        fin_cases i
        · funext o
          exact hG0 o
        · funext o
          show G 1 o = sys.G x 1 o
          rw [hG1 o, netCnstrV_forces hcb]
          rfl
  · rintro m nHa nHb sys la ua lb ub x hx ⟨f, G, sa, βa, sb, βb, hbox, -⟩
    exact hx hbox
  · intro f G h
    rw [h.2.1, linC1sys_f_eval]

/-- Concrete ReLU second-order system for the C1 witness. -/
def soTestSys : ReluSOSystem 1 1 1 where
  phi_a := { α := 1/10, W1 := ![![1, 1]], b1 := ![0], W2 := ![1], b2 := 0 }
  phi_b := { α := 1/10, W1 := ![![1, -1]], b1 := ![0], W2 := ![![2]], b2 := ![0] }
  x_lo := ![-1, -1]
  x_up := ![1, 1]
  u_lo := ![-1]
  u_up := ![1]

/-- Witness for C1 at concrete inputs: x = [1,2] inside the linear system's
box (feasible, f forced to [4, 3/2]), x = [-3, 0] outside it (infeasible), and
the concrete ReLU second-order system at x = [1/2, 1/4] with sound
pre-activation bounds [-2, 2]. -/
theorem C1_system_constraint_exact_witness :
    (∃ f G, linC1sys.sysConstraint ![1, 2] f G) ∧
    (∀ f G, linC1sys.sysConstraint ![1, 2] f G →
      f = linC1sys.f ![1, 2] ∧ G = linC1sys.G ![1, 2]) ∧
    ¬ (∃ f G, linC1sys.sysConstraint ![(-3 : ℚ), 0] f G) ∧
    (∃ f G sa βa sb βb,
      soTestSys.sysConstraint ![-2] ![2] ![-2] ![2] ![1/2, 1/4] f G sa βa sb βb) ∧
    (∀ f G sa βa sb βb,
      soTestSys.sysConstraint ![-2] ![2] ![-2] ![2] ![1/2, 1/4] f G sa βa sb βb →
      f = soTestSys.f ![1/2, 1/4] ∧ G = soTestSys.G ![1/2, 1/4]) := by
  have hso := C1_system_constraint_exact.2.2.1 1 1 1 soTestSys ![-2] ![2] ![-2]
    ![2] ![1/2, 1/4] (by norm_num [soTestSys]) (by norm_num [soTestSys])
    (fun j => by
      fin_cases j
      constructor <;>
        norm_num [soTestSys, ReluNet.preact, dotq, Fin.sum_univ_succ])
    (fun j => by
      fin_cases j
      constructor <;>
        norm_num [soTestSys, ReluNetV.preact, dotq, Fin.sum_univ_succ])
    (fun i => by fin_cases i <;> constructor <;> norm_num [soTestSys])
  refine ⟨(C1_system_constraint_exact.1 2 3 linC1sys ![1, 2] ?_).1,
    (C1_system_constraint_exact.1 2 3 linC1sys ![1, 2] ?_).2,
    C1_system_constraint_exact.2.1 2 3 linC1sys ![(-3 : ℚ), 0] ?_,
    hso.1, hso.2⟩
  · decide
  · decide
  · decide

end NNLyap
